import Mathlib

/-!
Verification of the AssistantAidan backend generation pipeline.

This development shallowly embeds the core components of the repository:
the OpenAI generation client (`src/services/openAiService.js`), the
version ledger of the content-update route
(`src/routes/generations.js`, PUT /:id/content), the image session store
(`src/utils/imageSession.js`), and the markdown test-case parsers of the
Excel export service.  Machine state (the session map, the filesystem)
is made explicit; asynchronous waits are recorded as data.
-/

set_option maxRecDepth 10000

namespace Aidan

/-! ## Generation client (`openAiService.js`)

`generateTestCases` calls the chat-completion API inside
`while (retryCount < this.maxRetries)` with `this.maxRetries = 3`.
On failure it increments `retryCount`, and if `retryCount <= maxRetries`
waits `2^retryCount * 1000` ms and loops; otherwise it rethrows the last
error.  Success with empty `content` throws (and is caught by the same
catch).  We embed the loop with an explicit `fuel` argument equal to
`maxRetries - retryCount`, which is exactly the loop guard; the wrapper
starts at `retryCount = 0`, `fuel = maxRetries`.
-/

/-- Provider usage block: a JS object, i.e. a partial map from field
names to numbers (`response.usage`). -/
def Usage := List (String × Nat)

structure ApiResponse where
  content : String
  usage : Usage

structure TokenUsage where
  promptTokens : Nat
  completionTokens : Nat
  totalTokens : Nat
  deriving DecidableEq, Repr

/-- Lines 192–197 of `openAiService.js`:
```
const usage = response.usage || {};
const tokenUsage = {
    promptTokens: usage.promptToken || 0,
    completionTokens: usage.completion_tokens || 0,
    totalTokens: usage.total_tokens || 0
}
```
Note the code reads the property named `promptToken`. -/
def extractTokenUsage (usage : Usage) : TokenUsage :=
  { promptTokens := (List.lookup "promptToken" usage).getD 0
    completionTokens := (List.lookup "completion_tokens" usage).getD 0
    totalTokens := (List.lookup "total_tokens" usage).getD 0 }

/-- Lines 199–212: per-model cost.  `modelToUse === this.visionModel`
exactly when images were supplied (`hasImages`), since the default env
model identifiers differ.  Arithmetic is modelled exactly, over ℚ. -/
def computeCost (useVision : Bool) (promptTokens completionTokens : Nat) : ℚ :=
  let inputCost : ℚ :=
    if useVision then ((promptTokens : ℚ) / 1000000) * 2.50
    else ((promptTokens : ℚ) / 1000000) * 0.15
  let outputCost : ℚ :=
    if useVision then ((completionTokens : ℚ) / 1000000) * 10.00
    else ((completionTokens : ℚ) / 1000000) * 0.60
  inputCost + outputCost

structure GenResult where
  content : String
  tokenUsage : TokenUsage
  cost : ℚ

/-- The success path of one attempt (lines 185–218): empty content is
itself an error, otherwise the result is assembled from the usage block
and the cost formula. -/
def attemptOnce (hasImages : Bool) (resp : Except String ApiResponse) :
    Except String GenResult :=
  match resp with
  | .error e => .error e
  | .ok r =>
    if r.content = "" then .error "Empty response frpm OpenAi"
    else
      let tu := extractTokenUsage r.usage
      .ok { content := r.content
            tokenUsage := tu
            cost := computeCost hasImages tu.promptTokens tu.completionTokens }

/-- Observable outcome of the retry loop: how many attempts were made,
the backoff waits performed (ms), and the final result — `none` models
the loop exiting with the function returning `undefined` (no value, no
exception). -/
structure GenOutcome where
  attempts : Nat
  waits : List Nat
  result : Option (Except String GenResult)

/-- Lines 170–233, the retry loop.  `fuel` is `maxRetries - retryCount`,
so `fuel = 0` is exactly the loop guard `retryCount < maxRetries`
failing, whereupon control falls off the `while` and the function
returns `undefined` (`result := none`). -/
def genLoop (call : Nat → Except String ApiResponse) (hasImages : Bool)
    (maxRetries : Nat) :
    Nat → Nat → Nat → List Nat → GenOutcome
  | 0, _, attempts, waits => ⟨attempts, waits, none⟩
  | fuel + 1, retryCount, attempts, waits =>
    match attemptOnce hasImages (call attempts) with
    | .ok r => ⟨attempts + 1, waits, some (.ok r)⟩
    | .error e =>
      if retryCount + 1 ≤ maxRetries then
        genLoop call hasImages maxRetries fuel (retryCount + 1) (attempts + 1)
          (waits ++ [2 ^ (retryCount + 1) * 1000])
      else
        ⟨attempts + 1, waits, some (.error e)⟩

/-- `generateTestCases` with `this.maxRetries = 3`, starting at
`retryCount = 0` with no waits performed. -/
def runGenerate (call : Nat → Except String ApiResponse) (hasImages : Bool) :
    GenOutcome :=
  genLoop call hasImages 3 3 0 0 []

/-- An always-failing transport. -/
def failingCall : Nat → Except String ApiResponse := fun _ => .error "ECONNRESET"

/-- The documented per-token input rate, derived from the per-million
rates ($2.50 vision, $0.15 default). -/
def inputRate (useVision : Bool) : ℚ := (if useVision then 2.50 else 0.15) / 1000000

/-- The documented per-token output rate, derived from the per-million
rates ($10.00 vision, $0.60 default). -/
def outputRate (useVision : Bool) : ℚ := (if useVision then 10.00 else 0.60) / 1000000

/-- A provider usage block as the OpenAI API reports it: snake_case
field names. -/
def reportedUsage : Usage :=
  [("prompt_tokens", 5), ("completion_tokens", 7), ("total_tokens", 12)]

/-! ## Version ledger (`routes/generations.js`, PUT /:id/content)

The handler (lines 354–414), after its route guards, runs:
```
const currentContent = gen.result?.markdown?.content || '';
if (currentContent && currentContent !== content) {
    if (!gen.versions) gen.versions = [];
    const currentVersionNum = gen.currentVersion || 1;
    const versionExists = gen.versions.some(v => v.version === currentVersionNum);
    if (!versionExists) {
        gen.versions.push({ version: currentVersionNum, content: currentContent,
                            updatedAt: new Date(), updatedBy: req.user.email });
    }
    gen.currentVersion = currentVersionNum + 1;
}
gen.result.markdown.content = content;
```
We model the generation by its live content (with the `|| ''` default
applied), its `currentVersion` (`0` encodes the JS-falsy unset value),
and its ledger. -/

structure VersionEntry where
  version : Nat
  content : String
  updatedAt : Nat
  updatedBy : String
  deriving DecidableEq, Repr

structure Gen where
  content : String
  currentVersion : Nat
  versions : List VersionEntry
  deriving DecidableEq, Repr

/-- `gen.currentVersion || 1`. -/
def currentVersionNum (g : Gen) : Nat :=
  if g.currentVersion = 0 then 1 else g.currentVersion

/-- `gen.versions.some(v => v.version === n)`. -/
def versionExists (g : Gen) (n : Nat) : Bool :=
  g.versions.any (fun v => v.version == n)

/-- One invocation of the content-update handler's version-tracking
core. -/
def recordEdit (g : Gen) (newContent editor : String) (now : Nat) : Gen :=
  if g.content ≠ "" ∧ g.content ≠ newContent then
    { content := newContent
      currentVersion := currentVersionNum g + 1
      versions :=
        if versionExists g (currentVersionNum g) then g.versions
        else g.versions ++ [⟨currentVersionNum g, g.content, now, editor⟩] }
  else
    { g with content := newContent }

/-- A sequence of content updates by one editor. -/
def applyEdits (g : Gen) (es : List String) : Gen :=
  es.foldl (fun g e => recordEdit g e "editor@example.com" 0) g

/-- The ledger's version numbers, in ledger order. -/
def versionNums (g : Gen) : List Nat := g.versions.map (·.version)

/-- Each successive content is non-empty and distinct from the
then-current content. -/
def validEdits : Gen → List String → Bool
  | _, [] => true
  | g, e :: es =>
    e ≠ "" && e ≠ g.content && validEdits (recordEdit g e "editor@example.com" 0) es

/-- A completed generation in its initial state: generated content
`"a"`, `currentVersion` 1, empty ledger. -/
def genC4 : Gen := ⟨"a", 1, []⟩

/-! ## Image session store (`utils/imageSession.js`)

The module keeps a process-wide `Map` from session id to session and
touches the filesystem on cleanup.  We model the pair explicitly: the
map as an association list and the filesystem as the list of existing
file paths.  `getSession` (lines 41–60) returns the session only if
present and not expired (`new Date() > session.expiresAt` triggers
cleanup) and, when a truthy `userEmail` is supplied, only if it matches
the owner; it returns the possibly-changed world alongside. -/

structure SessionImage where
  filepath : String
  filename : String
  deriving DecidableEq, Repr

structure ImageSession where
  userEmail : String
  images : List SessionImage
  createdAt : Nat
  expiresAt : Nat
  deriving DecidableEq, Repr

structure World where
  sessions : List (String × ImageSession)
  files : List String
  deriving DecidableEq, Repr

/-- Lines 62–81: delete each backing image file (best effort: only
files that exist are unlinked, which on a set model is plain removal),
then evict the map entry; a no-op for an absent id. -/
def cleanupSession (w : World) (sessionId : String) : World :=
  match List.lookup sessionId w.sessions with
  | none => w
  | some s =>
    { sessions := w.sessions.filter (fun p => p.1 != sessionId)
      files := w.files.filter
        (fun f => !(s.images.any (fun img => img.filepath == f))) }

/-- The JS guard `userEmail && session.userEmail !== userEmail`:
a `null` (absent) or empty `userEmail` is falsy and skips the
ownership check. -/
def ownerMismatch (userEmail : Option String) (s : ImageSession) : Bool :=
  match userEmail with
  | none => false
  | some e => (e != "") && (s.userEmail != e)

/-- Lines 41–60. -/
def getSession (w : World) (sessionId : String) (userEmail : Option String)
    (now : Nat) : Option ImageSession × World :=
  match List.lookup sessionId w.sessions with
  | none => (none, w)
  | some s =>
    if s.expiresAt < now then (none, cleanupSession w sessionId)
    else if ownerMismatch userEmail s then (none, w)
    else (some s, w)

/-- A session owned by `"b"`, created at time 0 with TTL 100. -/
def sessB : ImageSession := ⟨"b", [], 0, 100⟩

def worldC9 : World := ⟨[("s1", sessB)], []⟩

def imgA : SessionImage := ⟨"/uploads/a.png", "a.png"⟩

/-- An expired session holding one image. -/
def sessExp : ImageSession := ⟨"b", [imgA], 0, 100⟩

/-- An unexpired session of another owner. -/
def sessLive : ImageSession := ⟨"c", [], 0, 1000⟩

def worldC10 : World :=
  ⟨[("s1", sessExp), ("s2", sessLive)], ["/uploads/a.png", "/uploads/keep.png"]⟩

/-! ## Markdown test-case parsers (Excel export service)

Two revisions of the export module are in the repository.  `V1` splits
on `/### Test Case \d+:/` and extracts labelled sections with
`-\s*\*\*Label\*\*:\s*([\s\S]*?)(?=\n\s*-\s*\*\*|\n###|$)` (flag `i`);
`V0` splits on `/Test Case \d+/` and extracts heading sections with
`##\s*Heading[\s\S]*?(?=\n##\s|$)` (flag `i`), stripping the matched
heading.  Both share `cleanMarkdown`, a chain of global regex
replacements.  We embed each regex operation directly over `List Char`
with its JavaScript semantics: leftmost scanning, `m`-flag line
anchoring, greedy `\s*`/`\d+` (backtracking into such a run cannot
succeed, as the run's character class excludes the follow character),
and lazy bodies stopping at the first position where the lookahead
matches.  Scanners that consume a computed number of characters per
step take a fuel argument; every step consumes at least one character,
so the wrappers' budget of `length + 1` never runs out and the fuel
case is unreachable. -/

/-- ASCII subset of the JS `\s` class. -/
def isWsChar (c : Char) : Bool :=
  c = ' ' || c = '\t' || c = '\n' || c = '\r' || c = '\x0b' || c = '\x0c'

def isDigitChar (c : Char) : Bool := '0' ≤ c && c ≤ '9'

/-- Length of the maximal run of characters satisfying `p` at the head
(greedy `X*` matching for a character class `X`). -/
def countLeading (p : Char → Bool) : List Char → Nat
  | [] => 0
  | c :: cs => if p c then countLeading p cs + 1 else 0

/-- Match a literal character sequence, returning the remainder. -/
def expect : List Char → List Char → Option (List Char)
  | [], cs => some cs
  | _ :: _, [] => none
  | p :: ps, c :: cs => if c = p then expect ps cs else none

/-- ASCII lower-casing, as the `i` flag applies to the letters of the
interpolated labels. -/
def lowerChar (c : Char) : Char :=
  if 'A' ≤ c && c ≤ 'Z' then Char.ofNat (c.toNat + 32) else c

/-- Case-insensitive literal match. -/
def expectCI : List Char → List Char → Option (List Char)
  | [], cs => some cs
  | _ :: _, [] => none
  | p :: ps, c :: cs => if lowerChar c = lowerChar p then expectCI ps cs else none

/-- Leftmost match of `f`: the text before the match and the remainder
after it. -/
def findM (f : List Char → Option (List Char)) :
    List Char → Option (List Char × List Char)
  | [] =>
    match f [] with
    | some r => some ([], r)
    | none => none
  | c :: cs =>
    match f (c :: cs) with
    | some r => some ([], r)
    | none => (findM f cs).map (fun pr => (c :: pr.1, pr.2))

/-- `String.prototype.split` on the regex recognised by `f`: fueled
scanner over the non-overlapping leftmost matches. -/
def splitF (f : List Char → Option (List Char)) :
    Nat → List Char → List (List Char)
  | 0, cs => [cs]
  | fuel + 1, cs =>
    match findM f cs with
    | none => [cs]
    | some (pre, rest) => pre :: splitF f fuel rest

/-- Every delimiter match consumes at least one character, so a budget
of `length + 1` is never exhausted. -/
def splitM (f : List Char → Option (List Char)) (cs : List Char) :
    List (List Char) :=
  splitF f (cs.length + 1) cs

/-- `.replace(/^#{1,6}\s*/gm, '')`: at each line start, strip up to six
`#` and the following whitespace run (which, `\s` matching newlines,
may span lines).  The continuation is at a line start iff the last
consumed character was a newline. -/
def stripHeadingsF : Nat → Bool → List Char → List Char
  | 0, _, cs => cs
  | fuel + 1, atStart, cs =>
    match cs with
    | [] => []
    | c :: rest =>
      if atStart && c = '#' then
        let t := min (countLeading (fun x => x = '#') rest) 5
        let afterH := rest.drop t
        let w := countLeading isWsChar afterH
        stripHeadingsF fuel ((afterH.take w).getLast? == some '\n') (afterH.drop w)
      else
        c :: stripHeadingsF fuel (c == '\n') rest

def stripHeadings (cs : List Char) : List Char :=
  stripHeadingsF (cs.length + 1) true cs

/-- `.replace(/^\d+\.\s+/gm, '• ')` (V1 only): a numbered step becomes
a bullet. -/
def stripNumberedF : Nat → Bool → List Char → List Char
  | 0, _, cs => cs
  | fuel + 1, atStart, cs =>
    match cs with
    | [] => []
    | c :: rest =>
      if atStart && isDigitChar c then
        let d := countLeading isDigitChar rest
        match rest.drop d with
        | '.' :: cs2 =>
          let w := countLeading isWsChar cs2
          if 0 < w then
            '•' :: ' ' ::
              stripNumberedF fuel ((cs2.take w).getLast? == some '\n') (cs2.drop w)
          else c :: stripNumberedF fuel (c == '\n') rest
        | _ => c :: stripNumberedF fuel (c == '\n') rest
      else c :: stripNumberedF fuel (c == '\n') rest

def stripNumbered (cs : List Char) : List Char :=
  stripNumberedF (cs.length + 1) true cs

/-- Offset of the first `**` in the current line (the lazy
`(.*?)\*\*`: `.` does not match a newline). -/
def findClose2 : List Char → Option Nat
  | '*' :: '*' :: _ => some 0
  | c :: rest => if c = '\n' then none else (findClose2 rest).map (· + 1)
  | [] => none

/-- `.replace(/\*\*(.*?)\*\*/g, '$1')`. -/
def stripBoldF : Nat → List Char → List Char
  | 0, cs => cs
  | _ + 1, [] => []
  | fuel + 1, c :: cs =>
    if c = '*' then
      match cs with
      | c2 :: cs2 =>
        if c2 = '*' then
          match findClose2 cs2 with
          | some j => cs2.take j ++ stripBoldF fuel (cs2.drop (j + 2))
          | none => c :: stripBoldF fuel cs
        else c :: stripBoldF fuel cs
      | [] => [c]
    else c :: stripBoldF fuel cs

def stripBold (cs : List Char) : List Char := stripBoldF (cs.length + 1) cs

/-- Offset of the first `*` in the current line. -/
def findClose1 : List Char → Option Nat
  | '*' :: _ => some 0
  | c :: rest => if c = '\n' then none else (findClose1 rest).map (· + 1)
  | [] => none

/-- `.replace(/\*(.*?)\*/g, '$1')`. -/
def stripItalicF : Nat → List Char → List Char
  | 0, cs => cs
  | _ + 1, [] => []
  | fuel + 1, c :: cs =>
    if c = '*' then
      match findClose1 cs with
      | some j => cs.take j ++ stripItalicF fuel (cs.drop (j + 1))
      | none => c :: stripItalicF fuel cs
    else c :: stripItalicF fuel cs

def stripItalic (cs : List Char) : List Char := stripItalicF (cs.length + 1) cs

/-- `.replace(/^\s*[-*•]\s+/gm, '')`: at a line start, a whitespace
run, a bullet, and at least one whitespace character are removed. -/
def stripBulletsF : Nat → Bool → List Char → List Char
  | 0, _, cs => cs
  | fuel + 1, atStart, cs =>
    match cs with
    | [] => []
    | c :: rest =>
      if atStart then
        let w := countLeading isWsChar (c :: rest)
        match (c :: rest).drop w with
        | b :: cs2 =>
          if b = '-' || b = '*' || b = '•' then
            let w2 := countLeading isWsChar cs2
            if 0 < w2 then
              stripBulletsF fuel ((cs2.take w2).getLast? == some '\n') (cs2.drop w2)
            else c :: stripBulletsF fuel (c == '\n') rest
          else c :: stripBulletsF fuel (c == '\n') rest
        | [] => c :: stripBulletsF fuel (c == '\n') rest
      else c :: stripBulletsF fuel (c == '\n') rest

def stripBullets (cs : List Char) : List Char :=
  stripBulletsF (cs.length + 1) true cs

/-- `.replace(/[`>]/g, '')` (the class holds the backtick and `>`). -/
def stripPunct (cs : List Char) : List Char :=
  cs.filter (fun c => !(c = Char.ofNat 96 || c = '>'))

/-- `.replace(/\n{2,}/g, '\n')`. -/
def collapseNlF : Nat → List Char → List Char
  | 0, cs => cs
  | _ + 1, [] => []
  | fuel + 1, c :: rest =>
    if c = '\n' then
      let n := countLeading (fun x => x = '\n') rest
      if 0 < n then '\n' :: collapseNlF fuel (rest.drop n)
      else '\n' :: collapseNlF fuel rest
    else c :: collapseNlF fuel rest

def collapseNl (cs : List Char) : List Char := collapseNlF (cs.length + 1) cs

/-- `.trim()`. -/
def trimChars (cs : List Char) : List Char :=
  ((cs.dropWhile isWsChar).reverse.dropWhile isWsChar).reverse

/-- V1 `cleanMarkdown` (headings, numbered→bullet, bold, italic,
bullets, punctuation, blank-line collapse, trim — in source order). -/
def cleanMarkdownV1 (cs : List Char) : List Char :=
  trimChars (collapseNl (stripPunct (stripBullets (stripItalic (stripBold
    (stripNumbered (stripHeadings cs)))))))

/-- V0 `cleanMarkdown`: the same chain without the numbered-step
rule. -/
def cleanMarkdownV0 (cs : List Char) : List Char :=
  trimChars (collapseNl (stripPunct (stripBullets (stripItalic (stripBold
    (stripHeadings cs))))))

/-- `block.split('\n')[0]`. -/
def firstLine : List Char → List Char
  | [] => []
  | '\n' :: _ => []
  | c :: rest => c :: firstLine rest

/-- `"Test Case "`. -/
def tcLit : List Char := ['T', 'e', 's', 't', ' ', 'C', 'a', 's', 'e', ' ']

/-- V1 split delimiter `/### Test Case \d+:/`. -/
def matchDelimV1 (cs : List Char) : Option (List Char) :=
  match expect (['#', '#', '#', ' '] ++ tcLit) cs with
  | none => none
  | some r1 =>
    let d := countLeading isDigitChar r1
    if d = 0 then none
    else
      match r1.drop d with
      | ':' :: r2 => some r2
      | _ => none

/-- V0 split delimiter `/Test Case \d+/`. -/
def matchDelimV0 (cs : List Char) : Option (List Char) :=
  match expect tcLit cs with
  | none => none
  | some r1 =>
    let d := countLeading isDigitChar r1
    if d = 0 then none else some (r1.drop d)

/-- V1 label head `-\s*\*\*{label}\*\*:`, label case-insensitive;
returns the remainder after the colon. -/
def matchLabelV1 (label : List Char) (cs : List Char) : Option (List Char) :=
  match cs with
  | '-' :: rest =>
    (match (rest.drop (countLeading isWsChar rest)) with
     | '*' :: '*' :: cs2 =>
       match expectCI label cs2 with
       | some ('*' :: '*' :: ':' :: cs4) => some cs4
       | _ => none
     | _ => none)
  | _ => none

/-- V1 lookahead `(?=\n\s*-\s*\*\*|\n###|$)`. -/
def lookaheadV1 (cs : List Char) : Bool :=
  match cs with
  | [] => true
  | '\n' :: rest =>
    (match rest.drop (countLeading isWsChar rest) with
     | '-' :: cs2 =>
       (match cs2.drop (countLeading isWsChar cs2) with
        | '*' :: '*' :: _ => true
        | _ => false)
     | _ => false)
    || (match rest with
        | '#' :: '#' :: '#' :: _ => true
        | _ => false)
  | _ => false

/-- Length of the shortest (lazy) body after which `look` holds; at the
end of input the `$` alternative always holds, so the fuel case is
unreachable with budget `length + 1`. -/
def findStopG (look : List Char → Bool) : Nat → List Char → Nat
  | 0, _ => 0
  | fuel + 1, cs =>
    if look cs then 0
    else
      match cs with
      | [] => 0
      | _ :: rest => findStopG look fuel rest + 1

/-- V1 `extractSection`: first label occurrence, greedy `\s*` after the
colon, lazy body up to the lookahead, then `.trim()`. -/
def extractSectionV1 (block label : List Char) : List Char :=
  match findM (matchLabelV1 label) block with
  | none => []
  | some (_, after) =>
    let body := after.drop (countLeading isWsChar after)
    trimChars (body.take (findStopG lookaheadV1 (body.length + 1) body))

/-- V0 heading head `##\s*{heading}` (heading case-insensitive). -/
def matchHeadingV0 (heading : List Char) (cs : List Char) : Option (List Char) :=
  match cs with
  | '#' :: '#' :: cs2 => expectCI heading (cs2.drop (countLeading isWsChar cs2))
  | _ => none

/-- V0 lookahead `(?=\n##\s|$)`. -/
def lookaheadV0 (cs : List Char) : Bool :=
  match cs with
  | [] => true
  | '\n' :: '#' :: '#' :: c :: _ => isWsChar c
  | _ => false

/-- V0 `extractSection`: the match starts with the heading head, which
the inner `.replace` removes again, so the result is the trimmed lazy
body after the heading. -/
def extractSectionV0 (block heading : List Char) : List Char :=
  match findM (matchHeadingV0 heading) block with
  | none => []
  | some (_, after) =>
    trimChars (after.take (findStopG lookaheadV0 (after.length + 1) after))

structure TestCaseRecord where
  id : String
  title : List Char
  priority : List Char
  preconditions : List Char
  steps : List Char
  expected : List Char
  deriving DecidableEq, Repr

def mkCaseV1 (index : Nat) (block : List Char) : TestCaseRecord :=
  let e1 := extractSectionV1 block "Expected Result".data
  { id := "Test Case " ++ toString (index + 1)
    title := cleanMarkdownV1 (trimChars (firstLine block))
    priority := cleanMarkdownV1 (extractSectionV1 block "Priority".data)
    preconditions := cleanMarkdownV1 (extractSectionV1 block "Preconditions".data)
    steps := cleanMarkdownV1 (extractSectionV1 block "Steps".data)
    expected := cleanMarkdownV1
      (if e1 = [] then extractSectionV1 block "Expected Results".data else e1) }

def mkCaseV0 (index : Nat) (block : List Char) : TestCaseRecord :=
  { id := "Test Case " ++ toString (index + 1)
    title := cleanMarkdownV0 (trimChars (firstLine block))
    priority := cleanMarkdownV0 (extractSectionV0 block "Priority".data)
    preconditions := cleanMarkdownV0 (extractSectionV0 block "Preconditions".data)
    steps := cleanMarkdownV0 (extractSectionV0 block "Steps".data)
    expected := cleanMarkdownV0 (extractSectionV0 block "Expected Results".data) }

/-- V1 `parseTestCases`: split, drop the preamble (`slice(1)`), build a
record per block in source order. -/
def parseTestCasesV1 (markdown : List Char) : List TestCaseRecord :=
  ((splitM matchDelimV1 markdown).tail).enum.map (fun p => mkCaseV1 p.1 p.2)

/-- V0 `parseTestCases`. -/
def parseTestCasesV0 (markdown : List Char) : List TestCaseRecord :=
  ((splitM matchDelimV0 markdown).tail).enum.map (fun p => mkCaseV0 p.1 p.2)

/-- The plain inline delimiter `Test Case 1`. -/
def inlineDelim : List Char := tcLit ++ ['1']

/-- The markdown heading delimiter `### Test Case 1`. -/
def headingDelim : List Char := ['#', '#', '#', ' '] ++ tcLit ++ ['1']

/-- A field is populated and free of heading, emphasis and bullet
markers. -/
def CleanField (cs : List Char) : Prop :=
  cs ≠ [] ∧ ∀ c ∈ cs, c ≠ '#' ∧ c ≠ '*' ∧ c ≠ '-' ∧ c ≠ '•'

instance (cs : List Char) : Decidable (CleanField cs) := by
  unfold CleanField
  infer_instance

/-- A three-block, fully-labelled markdown document in the format the
V1 parser targets. -/
def fixtureC6 : List Char :=
  ("# Test Cases for ABC-1: Login\n\n### Test Case 1: Login works\n- **Priority**: High\n- **Preconditions**: User exists\n- **Steps**:\n1. Open page\n2. Click login\n- **Expected Result**: Dashboard shown\n\n### Test Case 2: Bad password\n- **Priority**: Medium\n- **Preconditions**: User exists\n- **Steps**:\n1. Open page\n- **Expected Results**: Error shown\n\n### Test Case 3: Empty form\n- **Priority**: Low\n- **Preconditions**: None set\n- **Steps**:\n1. Submit empty\n- **Expected Result**: Validation error\n").data

end Aidan

/-! ## Theorems -/

namespace Aidan

/-- C1: against an always-failing transport, `generateTestCases` makes
exactly 3 attempts (not 4): the loop guard `retryCount < maxRetries`
admits attempts at `retryCount = 0, 1, 2` only.  It performs backoff
waits of 2s, 4s and 8s (the last one after the final attempt, serving
no purpose), and then falls off the `while` loop, resolving with
`undefined` (`result = none`) instead of throwing the last error: the
`else` branch that rethrows is unreachable because inside the loop
`retryCount + 1 ≤ maxRetries` always holds.  This contradicts the
claimed 4 attempts and surfaced error — and the code's own log message
`OpenAI API failed after ${this.maxRetries + 1} attempts`. -/
theorem retryExhaustion_C1 :
    runGenerate failingCall false = ⟨3, [2000, 4000, 8000], none⟩ := rfl

/-- C2: for every model selection and token counts, the cost computed
by `generateTestCases` equals
`promptTokens * inputRate + completionTokens * outputRate` with the
per-token rates derived from the documented per-million rates; it is a
pure function of `{model, promptTokens, completionTokens}`; and the
fixture `promptTokens = 1000000, completionTokens = 0` on the default
model yields cost `0.15`. -/
theorem costFormula_C2 :
    (∀ (v : Bool) (p c : Nat),
        computeCost v p c = (p : ℚ) * inputRate v + (c : ℚ) * outputRate v)
    ∧ computeCost false 1000000 0 = 0.15 := by
  constructor
  · intro v p c
    cases v <;> simp [computeCost, inputRate, outputRate] <;> ring
  · norm_num [computeCost]

theorem recordEdit_content (g : Gen) (c e : String) (t : Nat) :
    (recordEdit g c e t).content = c := by
  unfold recordEdit
  split <;> rfl

theorem recordEdit_of_eq (g : Gen) (c e : String) (t : Nat) (h : g.content = c) :
    recordEdit g c e t = { g with content := c } := by
  unfold recordEdit
  rw [if_neg]
  rintro ⟨-, h2⟩
  exact h2 h

theorem mem_versionNums_of_exists_false {g : Gen} {n : Nat}
    (h : versionExists g n = false) : n ∉ versionNums g := by
  intro hn
  simp only [versionNums, List.mem_map] at hn
  obtain ⟨v, hv, hvn⟩ := hn
  simp only [versionExists, List.any_eq_false] at h
  exact absurd (by simpa using hvn) (by simpa using h v hv)

theorem recordEdit_nodup {g : Gen} (c e : String) (t : Nat)
    (h : (versionNums g).Nodup) : (versionNums (recordEdit g c e t)).Nodup := by
  unfold recordEdit
  split
  · rcases hex : versionExists g (currentVersionNum g) with _ | _
    · have hmem := mem_versionNums_of_exists_false hex
      simp only [versionNums] at h hmem ⊢
      simp [hex, List.nodup_append, h, hmem]
    · simpa [versionNums, hex] using h
  · simpa [versionNums] using h

theorem applyEdits_nodup :
    ∀ (es : List String) (g : Gen),
      (versionNums g).Nodup → (versionNums (applyEdits g es)).Nodup := by
  intro es
  induction es with
  | nil => intro g h; simpa [applyEdits] using h
  | cons e es ih =>
    intro g h
    have h1 := recordEdit_nodup (g := g) e "editor@example.com" 0 h
    simpa [applyEdits] using ih _ h1

theorem applyEdits_spec :
    ∀ (es : List String) (g : Gen) (k : Nat),
      g.content ≠ "" → g.currentVersion = k → 0 < k →
      versionNums g = List.range' 1 (k - 1) →
      validEdits g es = true →
      versionNums (applyEdits g es) = List.range' 1 (k - 1 + es.length)
      ∧ (applyEdits g es).currentVersion = k + es.length := by
  intro es
  induction es with
  | nil =>
    intro g k h1 h2 h3 h4 h5
    exact ⟨by simpa [applyEdits] using h4, by simpa [applyEdits] using h2⟩
  | cons e es ih =>
    intro g k h1 h2 h3 h4 h5
    have he : e ≠ "" ∧ e ≠ g.content
        ∧ validEdits (recordEdit g e "editor@example.com" 0) es = true := by
      simpa [validEdits, Bool.and_eq_true, and_assoc] using h5
    have hnum : currentVersionNum g = k := by
      simp [currentVersionNum, h2, Nat.pos_iff_ne_zero.mp h3]
    have hex : versionExists g k = false := by
      by_contra hexc
      have htrue : versionExists g k = true := by
        cases hh : versionExists g k
        · exact absurd hh hexc
        · rfl
      rw [versionExists, List.any_eq_true] at htrue
      obtain ⟨v, hv, hvk⟩ := htrue
      have hkmem : k ∈ versionNums g := by
        simp only [versionNums, List.mem_map]
        exact ⟨v, hv, by simpa using hvk⟩
      rw [h4, List.mem_range'] at hkmem
      omega
    have hg' : recordEdit g e "editor@example.com" 0
        = ⟨e, k + 1, g.versions ++ [⟨k, g.content, 0, "editor@example.com"⟩]⟩ := by
      unfold recordEdit
      rw [if_pos ⟨h1, fun hc => he.2.1 hc.symm⟩, hnum, hex]
      rfl
    have hv' : versionNums (recordEdit g e "editor@example.com" 0)
        = List.range' 1 ((k + 1) - 1) := by
      rw [hg']
      simp only [versionNums, List.map_append, List.map_cons, List.map_nil]
      have h9 : versionNums g ++ [k] = List.range' 1 (k - 1) ++ [1 + (k - 1)] := by
        rw [h4]
        congr 1
        simp only [List.cons.injEq, and_true]
        omega
      rw [versionNums] at h9
      rw [h9, ← List.range'_1_concat]
      congr 1
      omega
    have := ih (recordEdit g e "editor@example.com" 0) (k + 1)
      (by rw [hg']; exact he.1) (by rw [hg']) (by omega) hv' he.2.2
    constructor
    · have h' := this.1
      rw [show applyEdits g (e :: es) = applyEdits (recordEdit g e "editor@example.com" 0) es
          from rfl]
      rw [h']
      congr 1
      simp only [List.length_cons]
      omega
    · have h' := this.2
      rw [show applyEdits g (e :: es) = applyEdits (recordEdit g e "editor@example.com" 0) es
          from rfl]
      rw [h']
      simp only [List.length_cons]
      omega

/-- C4 counterexample: starting from a completed generation with
content `"a"`, `currentVersion` 1 and an empty ledger, a single edit
supplying distinct content (`N = 1`) leaves the ledger with 1 entry and
`currentVersion = 2`, not the claimed `N - 1 = 0` entries and
`currentVersion = N = 1`: the handler snapshots the pre-edit content of
every edit, including the first. -/
theorem versionLedger_C4_cex :
    validEdits genC4 ["b"] = true
    ∧ ¬ ((applyEdits genC4 ["b"]).versions.length = 0
         ∧ (applyEdits genC4 ["b"]).currentVersion = 1) := by
  decide

/-- C4 (amended): starting from a completed generation with non-empty
content, `currentVersion` 1 and an empty ledger, after `N` edits each
supplying non-empty content distinct from the then-current content, the
ledger contains exactly `N` entries whose version numbers are
`[1, …, N]` — strictly increasing, hence unique — and
`currentVersion = N + 1`; moreover from any state with duplicate-free
ledger version numbers, any sequence of edits preserves that
uniqueness, so no reachable state has two ledger entries sharing a
version number. -/
theorem versionLedger_C4 :
    (∀ (g : Gen) (es : List String),
        g.currentVersion = 1 → g.versions = [] → g.content ≠ "" →
        validEdits g es = true →
        versionNums (applyEdits g es) = List.range' 1 es.length
        ∧ (applyEdits g es).currentVersion = es.length + 1)
    ∧ (∀ (es : List String) (g : Gen),
        (versionNums g).Nodup → (versionNums (applyEdits g es)).Nodup) := by
  constructor
  · intro g es h1 h2 h3 h5
    have h4 : versionNums g = List.range' 1 (1 - 1) := by
      simp [versionNums, h2]
    have h6 := applyEdits_spec es g 1 h3 h1 (by omega) h4 h5
    refine ⟨?_, ?_⟩
    · have := h6.1
      simpa using this
    · have := h6.2
      omega
  · exact applyEdits_nodup

/-- C4 witness: two distinct edits on a fresh completed generation give
ledger version numbers `[1, 2]` and `currentVersion = 3`. -/
theorem versionLedger_C4_witness :
    versionNums (applyEdits genC4 ["b", "c"]) = List.range' 1 2
    ∧ (applyEdits genC4 ["b", "c"]).currentVersion = 2 + 1 :=
  versionLedger_C4.1 genC4 ["b", "c"] rfl rfl (by decide) (by decide)

/-- C8: updating a generation's content twice in a row with the same
`content` is idempotent: the second invocation finds
`currentContent === content`, skips the version block, and changes
neither `currentVersion` nor the ledger length. -/
theorem idempotentEdit_C8 (g : Gen) (c e1 e2 : String) (t1 t2 : Nat) :
    (recordEdit (recordEdit g c e1 t1) c e2 t2).currentVersion
      = (recordEdit g c e1 t1).currentVersion
    ∧ (recordEdit (recordEdit g c e1 t1) c e2 t2).versions.length
      = (recordEdit g c e1 t1).versions.length := by
  rw [recordEdit_of_eq (recordEdit g c e1 t1) c e2 t2 (recordEdit_content g c e1 t1)]
  exact ⟨rfl, rfl⟩

/-- C3: the claim says `promptTokens` equals the provider-reported
prompt token count.  The code reads `usage.promptToken`, a property the
provider never sets (the usage block carries `prompt_tokens`), so the
extracted `promptTokens` is `0` even though the provider reported `5`;
the other two fields are read correctly. -/
theorem tokenUsageExtraction_C3 :
    (extractTokenUsage reportedUsage).promptTokens = 0
    ∧ List.lookup "prompt_tokens" reportedUsage = some 5
    ∧ (extractTokenUsage reportedUsage).completionTokens = 7
    ∧ (extractTokenUsage reportedUsage).totalTokens = 12 := by
  refine ⟨rfl, rfl, rfl, rfl⟩

theorem lookup_filter_self (id : String) :
    ∀ l : List (String × ImageSession),
      List.lookup id (l.filter (fun p => p.1 != id)) = none := by
  intro l
  induction l with
  | nil => rfl
  | cons p l ih =>
    obtain ⟨k, v⟩ := p
    cases hpk : (k == id) with
    | true => simpa [List.filter_cons, bne, hpk] using ih
    | false =>
      have h1 : ¬ (k = id) := by
        intro hh
        rw [hh] at hpk
        simp at hpk
      have hq : (id == k) = false := by
        cases hreq : (id == k) with
        | false => rfl
        | true =>
          have h2 : id = k := by simpa using hreq
          exact absurd h2.symm h1
      simpa [List.filter_cons, bne, hpk, List.lookup, hq] using ih

theorem lookup_filter_ne {id id' : String} (h : id' ≠ id) :
    ∀ l : List (String × ImageSession),
      List.lookup id' (l.filter (fun p => p.1 != id)) = List.lookup id' l := by
  intro l
  induction l with
  | nil => rfl
  | cons p l ih =>
    obtain ⟨k, v⟩ := p
    cases hpk : (k == id) with
    | true =>
      have hk : k = id := by simpa using hpk
      have hne : (id' == k) = false := by
        cases hreq : (id' == k) with
        | false => rfl
        | true =>
          have h2 : id' = k := by simpa using hreq
          exact absurd (hk ▸ h2) h
      have ih' : List.lookup id' (List.filter (fun p => !(p.1 == id)) l)
          = List.lookup id' l := by simpa [bne] using ih
      simp [List.filter_cons, bne, hpk, List.lookup, hne, ih']
    | false =>
      have ih' : List.lookup id' (List.filter (fun p => !(p.1 == id)) l)
          = List.lookup id' l := by simpa [bne] using ih
      cases hq : (id' == k) with
      | true => simp [List.filter_cons, bne, hpk, List.lookup, hq]
      | false => simp [List.filter_cons, bne, hpk, List.lookup, hq, ih']

/-- C10: looking up an expired session is not a pure read.  When the id
is present and `expiresAt` has passed, `getSession` performs
`cleanupSession`: the result is not-found, the entry is evicted, every
backing file of that session is gone from the filesystem, while every
other store entry and every unrelated file survive. -/
theorem expiredLookupCleanup_C10 :
    ∀ (w : World) (id : String) (owner : Option String) (now : Nat)
      (s : ImageSession),
      List.lookup id w.sessions = some s →
      s.expiresAt < now →
      (getSession w id owner now).1 = none
      ∧ (getSession w id owner now).2 = cleanupSession w id
      ∧ List.lookup id (getSession w id owner now).2.sessions = none
      ∧ (∀ img ∈ s.images, img.filepath ∉ (getSession w id owner now).2.files)
      ∧ (∀ id', id' ≠ id →
          List.lookup id' (getSession w id owner now).2.sessions
            = List.lookup id' w.sessions)
      ∧ (∀ f ∈ w.files, (∀ img ∈ s.images, img.filepath ≠ f) →
          f ∈ (getSession w id owner now).2.files) := by
  intro w id owner now s h hexp
  have hres : getSession w id owner now = (none, cleanupSession w id) := by
    simp [getSession, h, hexp]
  have hclean : cleanupSession w id
      = { sessions := w.sessions.filter (fun p => p.1 != id)
          files := w.files.filter
            (fun f => !(s.images.any (fun img => img.filepath == f))) } := by
    simp [cleanupSession, h]
  refine ⟨by rw [hres], by rw [hres], ?_, ?_, ?_, ?_⟩
  · rw [hres, hclean]
    exact lookup_filter_self id w.sessions
  · intro img himg hmem
    rw [hres, hclean] at hmem
    simp only [List.mem_filter, Bool.not_eq_true'] at hmem
    have : s.images.any (fun i => i.filepath == img.filepath) = true :=
      List.any_eq_true.mpr ⟨img, himg, by simp⟩
    rw [this] at hmem
    exact absurd hmem.2 (by simp)
  · intro id' hid
    rw [hres, hclean]
    exact lookup_filter_ne hid w.sessions
  · intro f hf hok
    rw [hres, hclean]
    simp only [List.mem_filter, Bool.not_eq_true']
    refine ⟨hf, ?_⟩
    rw [List.any_eq_false]
    intro img himg
    simpa using hok img himg

/-- C10 witness: in a world with an expired session `"s1"` (owning
`/uploads/a.png`), a live session `"s2"`, and an unrelated file,
looking `"s1"` up after expiry returns not-found, evicts `"s1"`,
deletes its image file, and leaves `"s2"` and the unrelated file
untouched. -/
theorem expiredLookupCleanup_C10_witness :
    (getSession worldC10 "s1" none 200).1 = none
    ∧ List.lookup "s1" (getSession worldC10 "s1" none 200).2.sessions = none
    ∧ "/uploads/a.png" ∉ (getSession worldC10 "s1" none 200).2.files
    ∧ List.lookup "s2" (getSession worldC10 "s1" none 200).2.sessions
        = some sessLive
    ∧ "/uploads/keep.png" ∈ (getSession worldC10 "s1" none 200).2.files := by
  have h := expiredLookupCleanup_C10 worldC10 "s1" none 200 sessExp
    (by decide) (by decide)
  refine ⟨h.1, h.2.2.1, h.2.2.2.1 imgA (by decide), ?_, ?_⟩
  · exact (h.2.2.2.2.1 "s2" (by decide)).trans (by decide)
  · exact h.2.2.2.2.2 "/uploads/keep.png" (by decide) (by decide)

/-- C9 counterexample: with a session created at time 0 with TTL 100
(so `expiresAt = 100`) and owner `"b"`, (i) at `now = 100` — i.e. at
exactly `T` after creation — `getSession` still returns the session,
because the expiry test is the strict `new Date() > session.expiresAt`,
contradicting "returns not-found at or after T"; (ii) supplying the
owner argument `""` bypasses the ownership check (JS falsiness), so a
caller whose owner string differs from `"b"` still receives the
session, contradicting "when an owner argument is supplied, the owner
equals the session's owning principal". -/
theorem sessionLookup_C9_cex :
    ¬ ((getSession worldC9 "s1" none 100).1 = none)
    ∧ ¬ ((getSession worldC9 "s1" (some "") 50).1 = none) := by
  decide

/-- C9 (amended): `getSession` returns the stored session exactly when
the session exists, has not strictly expired (a session with TTL `T` is
retrievable at every instant up to and including `T` and returns
not-found strictly after `T`), and every supplied *non-empty* owner
equals the session's owning principal; a differing non-empty owner
yields not-found, indistinguishable from an absent id. -/
theorem sessionLookup_C9 :
    (∀ (w : World) (id : String) (owner : Option String) (now : Nat)
        (s : ImageSession),
        List.lookup id w.sessions = some s →
        ((getSession w id owner now).1 = some s ↔
          (now ≤ s.expiresAt ∧ ∀ e, owner = some e → e ≠ "" → e = s.userEmail)))
    ∧ (∀ (w : World) (id : String) (owner : Option String) (now : Nat),
        List.lookup id w.sessions = none → (getSession w id owner now).1 = none) := by
  constructor
  · intro w id owner now s h
    by_cases hexp : s.expiresAt < now
    · have hres : (getSession w id owner now).1 = none := by
        simp [getSession, h, hexp]
      rw [hres]
      constructor
      · intro hcontra
        exact absurd hcontra (by simp)
      · rintro ⟨hle, -⟩
        omega
    · cases hmm : ownerMismatch owner s with
      | true =>
        have hres : (getSession w id owner now).1 = none := by
          simp [getSession, h, hexp, hmm]
        rw [hres]
        constructor
        · intro hcontra
          exact absurd hcontra (by simp)
        · rintro ⟨-, hown⟩
          exfalso
          cases owner with
          | none => simp [ownerMismatch] at hmm
          | some e =>
            simp only [ownerMismatch, Bool.and_eq_true, bne_iff_ne, ne_eq] at hmm
            exact hmm.2 ((hown e rfl hmm.1).symm)
      | false =>
        have hres : (getSession w id owner now).1 = some s := by
          simp [getSession, h, hexp, hmm]
        rw [hres]
        constructor
        · intro _
          refine ⟨by omega, ?_⟩
          intro e he hne
          cases owner with
          | none => exact absurd he (by simp)
          | some e' =>
            cases he
            by_cases hse : s.userEmail = e
            · exact hse.symm
            · simp [ownerMismatch, hne, hse] at hmm
        · intro _
          rfl
  · intro w id owner now h
    simp [getSession, h]

/-- C9 witness: the matching non-empty owner retrieves the unexpired
session. -/
theorem sessionLookup_C9_witness :
    (getSession worldC9 "s1" (some "b") 50).1 = some sessB :=
  (sessionLookup_C9.1 worldC9 "s1" (some "b") 50 sessB (by decide)).mpr
    ⟨by decide, fun e he _ => by cases he; rfl⟩

theorem findM_here {f : List Char → Option (List Char)} {cs r : List Char}
    (h : f cs = some r) : findM f cs = some ([], r) := by
  cases cs with
  | nil => simp [findM, h]
  | cons c cs => simp [findM, h]

theorem findM_none {f : List Char → Option (List Char)} :
    ∀ cs, (∀ i, f (cs.drop i) = none) → findM f cs = none := by
  intro cs
  induction cs with
  | nil =>
    intro h
    have h0 : f [] = none := by simpa using h 0
    simp [findM, h0]
  | cons c cs ih =>
    intro h
    have h0 : f (c :: cs) = none := by simpa using h 0
    have ht : findM f cs = none := ih (fun i => by simpa using h (i + 1))
    simp [findM, h0, ht]

theorem findM_skip {f : List Char → Option (List Char)} :
    ∀ (p rest q r : List Char),
      (∀ i, i < p.length → f ((p ++ rest).drop i) = none) →
      findM f rest = some (q, r) →
      findM f (p ++ rest) = some (p ++ q, r) := by
  intro p
  induction p with
  | nil => intro rest q r _ hr; simpa using hr
  | cons c p ih =>
    intro rest q r h hr
    have h0 : f (c :: (p ++ rest)) = none := by simpa using h 0 (by simp)
    have ht := ih rest q r
      (fun i hi => by simpa using h (i + 1) (by simpa using Nat.succ_lt_succ hi)) hr
    simp [findM, h0, ht]

theorem splitM_nil {f : List Char → Option (List Char)} (cs : List Char)
    (h : findM f cs = none) : splitM f cs = [cs] := by
  unfold splitM
  simp [splitF, h]

theorem splitM_pair {f : List Char → Option (List Char)} (cs pre rest : List Char)
    (h1 : findM f cs = some (pre, rest)) (h2 : findM f rest = none)
    (h3 : cs ≠ []) : splitM f cs = [pre, rest] := by
  obtain ⟨c, cs', rfl⟩ : ∃ c cs', cs = c :: cs' := by
    cases cs with
    | nil => exact absurd rfl h3
    | cons c cs' => exact ⟨c, cs', rfl⟩
  show splitF f ((c :: cs').length + 1) (c :: cs') = [pre, rest]
  have hlen : (c :: cs').length + 1 = cs'.length + 1 + 1 := by simp
  rw [hlen]
  simp only [splitF, h1, h2]

theorem expect_self_append : ∀ (p rest : List Char), expect p (p ++ rest) = some rest := by
  intro p
  induction p with
  | nil => intro rest; rfl
  | cons c p ih => intro rest; simp [expect, ih]

theorem noOcc_of_bounded {f : List Char → Option (List Char)} (hnil : f [] = none)
    (cs : List Char) (h : ∀ i, i < cs.length → f (cs.drop i) = none) :
    ∀ i, f (cs.drop i) = none := by
  intro i
  by_cases hi : i < cs.length
  · exact h i hi
  · rw [List.drop_eq_nil_of_le (by omega)]
    exact hnil

/-- C5: the parsers are total by construction over arbitrary input (the
embedding is a total function); on input with no occurrence of the
split delimiter, both parser revisions return the empty record list;
and a block with no occurrence of a recognised label pattern yields the
empty string for every labelled field rather than an error. -/
theorem parserTotal_C5 :
    (∀ cs : List Char, (∀ i, matchDelimV1 (cs.drop i) = none) →
        parseTestCasesV1 cs = [])
    ∧ (∀ cs : List Char, (∀ i, matchDelimV0 (cs.drop i) = none) →
        parseTestCasesV0 cs = [])
    ∧ (∀ (block : List Char) (idx : Nat),
        (∀ i, matchLabelV1 "Priority".data (block.drop i) = none) →
        (∀ i, matchLabelV1 "Preconditions".data (block.drop i) = none) →
        (∀ i, matchLabelV1 "Steps".data (block.drop i) = none) →
        (∀ i, matchLabelV1 "Expected Result".data (block.drop i) = none) →
        (∀ i, matchLabelV1 "Expected Results".data (block.drop i) = none) →
        (mkCaseV1 idx block).priority = []
        ∧ (mkCaseV1 idx block).preconditions = []
        ∧ (mkCaseV1 idx block).steps = []
        ∧ (mkCaseV1 idx block).expected = []) := by
  refine ⟨?_, ?_, ?_⟩
  · intro cs h
    have h2 : splitM matchDelimV1 cs = [cs] := splitM_nil cs (findM_none cs h)
    simp [parseTestCasesV1, h2]
  · intro cs h
    have h2 : splitM matchDelimV0 cs = [cs] := splitM_nil cs (findM_none cs h)
    simp [parseTestCasesV0, h2]
  · intro block idx hP hPre hS hE1 hE2
    have eP : extractSectionV1 block "Priority".data = [] := by
      unfold extractSectionV1
      rw [findM_none block hP]
    have ePre : extractSectionV1 block "Preconditions".data = [] := by
      unfold extractSectionV1
      rw [findM_none block hPre]
    have eS : extractSectionV1 block "Steps".data = [] := by
      unfold extractSectionV1
      rw [findM_none block hS]
    have eE1 : extractSectionV1 block "Expected Result".data = [] := by
      unfold extractSectionV1
      rw [findM_none block hE1]
    have eE2 : extractSectionV1 block "Expected Results".data = [] := by
      unfold extractSectionV1
      rw [findM_none block hE2]
    have hnil : cleanMarkdownV1 [] = [] := rfl
    refine ⟨?_, ?_, ?_, ?_⟩ <;>
      simp [mkCaseV1, eP, ePre, eS, eE1, eE2, hnil]

/-- C5 witness: delimiter-free text parses to no records in both
revisions, and a label-free block has an empty priority field. -/
theorem parserTotal_C5_witness :
    parseTestCasesV1 "Nothing to see here.".data = []
    ∧ parseTestCasesV0 "Nothing to see here.".data = []
    ∧ (mkCaseV1 0 "A block with no labels at all".data).priority = [] := by
  refine ⟨parserTotal_C5.1 _ (noOcc_of_bounded rfl _ (by decide)),
    parserTotal_C5.2.1 _ (noOcc_of_bounded rfl _ (by decide)),
    (parserTotal_C5.2.2 _ 0 (noOcc_of_bounded rfl _ (by decide))
      (noOcc_of_bounded rfl _ (by decide)) (noOcc_of_bounded rfl _ (by decide))
      (noOcc_of_bounded rfl _ (by decide))
      (noOcc_of_bounded rfl _ (by decide))).1⟩

/-- C6: the three-block fully-labelled fixture parses (V1 parser) to
exactly three records, in source order (witnessed by the titles), with
all five labelled fields populated and free of `#`, `*`, `-` and
bullet markers. -/
theorem roundTrip_C6 :
    (parseTestCasesV1 fixtureC6).length = 3
    ∧ (parseTestCasesV1 fixtureC6).map (fun r => r.title)
        = ["Login works".data, "Bad password".data, "Empty form".data]
    ∧ ∀ r ∈ parseTestCasesV1 fixtureC6,
        CleanField r.title ∧ CleanField r.priority ∧ CleanField r.preconditions
        ∧ CleanField r.steps ∧ CleanField r.expected := by
  decide

/-- C7: the V0 parser recognises both heading conventions: for every
document `preamble ++ delimiter ++ body` whose preamble contains no
delimiter occurrence and whose body is delimiter-free and does not
start with a digit, both the plain inline `Test Case 1` delimiter and
the `### Test Case 1` markdown heading delimiter split the document
into the preamble (discarded, including the `### ` prefix) and the
block, producing the same single record built from the block. -/
theorem delimiterConventions_C7 :
    ∀ p b : List Char,
      (∀ i, i < p.length → matchDelimV0 ((p ++ inlineDelim ++ b).drop i) = none) →
      (∀ i, i < p.length → matchDelimV0 ((p ++ headingDelim ++ b).drop i) = none) →
      (∀ i, matchDelimV0 (b.drop i) = none) →
      countLeading isDigitChar b = 0 →
      parseTestCasesV0 (p ++ inlineDelim ++ b) = [mkCaseV0 0 b]
      ∧ parseTestCasesV0 (p ++ headingDelim ++ b) = [mkCaseV0 0 b] := by
  intro p b h1 h2 hb hd
  have hdelim : matchDelimV0 (tcLit ++ ('1' :: b)) = some b := by
    unfold matchDelimV0
    rw [expect_self_append]
    simp [countLeading, isDigitChar, hd]
  have hfindb : findM matchDelimV0 b = none := findM_none b hb
  have hinline : p ++ inlineDelim ++ b = p ++ (tcLit ++ ('1' :: b)) := by
    simp [inlineDelim, List.append_assoc]
  have hheading : p ++ headingDelim ++ b
      = p ++ ('#' :: '#' :: '#' :: ' ' :: (tcLit ++ ('1' :: b))) := by
    simp [headingDelim, List.append_assoc]
  constructor
  · have hfind : findM matchDelimV0 (p ++ (tcLit ++ ('1' :: b))) = some (p, b) := by
      have hs := findM_skip p (tcLit ++ ('1' :: b)) [] b
        (fun i hi => by have := h1 i hi; rwa [hinline] at this)
        (findM_here hdelim)
      simpa using hs
    have hsplit : splitM matchDelimV0 (p ++ (tcLit ++ ('1' :: b))) = [p, b] := by
      apply splitM_pair _ _ _ hfind hfindb
      simp [tcLit]
    rw [hinline]
    simp [parseTestCasesV0, hsplit, List.enum, List.enumFrom]
  · have hfour : findM matchDelimV0 ('#' :: '#' :: '#' :: ' ' :: (tcLit ++ ('1' :: b)))
        = some (['#', '#', '#', ' '], b) := by
      have e0 : matchDelimV0 ('#' :: ('#' :: '#' :: ' ' :: (tcLit ++ ('1' :: b))))
          = none := by simp [matchDelimV0, tcLit, expect]
      have e1 : matchDelimV0 ('#' :: ('#' :: ' ' :: (tcLit ++ ('1' :: b))))
          = none := by simp [matchDelimV0, tcLit, expect]
      have e2 : matchDelimV0 ('#' :: (' ' :: (tcLit ++ ('1' :: b))))
          = none := by simp [matchDelimV0, tcLit, expect]
      have e3 : matchDelimV0 (' ' :: (tcLit ++ ('1' :: b)))
          = none := by simp [matchDelimV0, tcLit, expect]
      have e4 := findM_here hdelim
      show findM matchDelimV0 ('#' :: '#' :: '#' :: ' ' :: (tcLit ++ ('1' :: b)))
          = some (['#', '#', '#', ' '], b)
      rw [findM, e0, findM, e1, findM, e2, findM, e3, e4]
      rfl
    have hfind : findM matchDelimV0 (p ++ ('#' :: '#' :: '#' :: ' ' :: (tcLit ++ ('1' :: b))))
        = some (p ++ ['#', '#', '#', ' '], b) := by
      exact findM_skip p _ _ b
        (fun i hi => by have := h2 i hi; rwa [hheading] at this) hfour
    have hsplit : splitM matchDelimV0 (p ++ ('#' :: '#' :: '#' :: ' ' :: (tcLit ++ ('1' :: b))))
        = [p ++ ['#', '#', '#', ' '], b] := by
      apply splitM_pair _ _ _ hfind hfindb
      simp
    rw [hheading]
    simp [parseTestCasesV0, hsplit, List.enum, List.enumFrom]

/-- C7 witness: with a concrete preamble and block, both delimiter
conventions yield the same single record with the preamble
discarded. -/
theorem delimiterConventions_C7_witness :
    parseTestCasesV0 ("Intro text\n".data ++ inlineDelim
        ++ ": Title\n## Priority\nHigh".data)
      = [mkCaseV0 0 ": Title\n## Priority\nHigh".data]
    ∧ parseTestCasesV0 ("Intro text\n".data ++ headingDelim
        ++ ": Title\n## Priority\nHigh".data)
      = [mkCaseV0 0 ": Title\n## Priority\nHigh".data] :=
  delimiterConventions_C7 "Intro text\n".data ": Title\n## Priority\nHigh".data
    (by decide) (by decide) (noOcc_of_bounded rfl _ (by decide)) (by decide)

end Aidan
